import Mathlib

/-!
Shallow embedding of the Intcode virtual machine from `src/intcode.rs`
(jgraef/aoc-2019).  Machine integers: the Rust code uses `i64` for cell
values and `usize` for addresses; we embed them as `Int` and `Nat`, with
Rust's truncating `/` and `%` on `i64` embedded as `Int.tdiv` / `Int.tmod`,
and the wrapping `as u8` cast embedded as `% 256` (Euclidean) on `Int`.
`i64 -> usize` conversion via `try_into` fails exactly on negative values
(64-bit target), embedded as a sign test.

Mutation through `&mut self` is embedded as explicit state passing; since a
failing `Machine::step` in Rust leaves the partially-mutated machine behind,
`step` here returns `Machine × Option Error` (the machine as left by the
step, plus the error if any).  The unbounded `while`/`loop` drivers `run`
and `next_output` take a fuel parameter and return `none` when fuel runs
out; `run fuel m = some (m1, none)` corresponds to `run` returning `Ok(())`
with final state `m1`.
-/

namespace Intcode

inductive Error where
  | InvalidInstruction : Int → Error
  | InvalidAddress : Int → Error
  | Halted : Error
  | InvalidProgram : Error
  | InvalidParameterMode : Nat → Error
  | NoInput : Error
  | InvalidArgument : Int → Error
  | NotAnInteger : String → Error
deriving DecidableEq, Repr

inductive ParameterMode where
  | Position : ParameterMode
  | Immediate : ParameterMode
  | Relative : ParameterMode
deriving DecidableEq, Repr

/-- `impl TryFrom<u8> for ParameterMode` (intcode.rs:34-45). -/
def ParameterMode.tryFrom (value : Nat) : Except Error ParameterMode :=
  match value with
  | 0 => .ok .Position
  | 1 => .ok .Immediate
  | 2 => .ok .Relative
  | _ => .error (.InvalidParameterMode value)

instance {ε α : Type} [DecidableEq ε] [DecidableEq α] : DecidableEq (Except ε α) :=
  fun x y =>
    match x, y with
    | .ok a, .ok b =>
      if h : a = b then .isTrue (by rw [h])
      else .isFalse (by intro hc; cases hc; exact h rfl)
    | .ok _, .error _ => .isFalse (by intro hc; cases hc)
    | .error _, .ok _ => .isFalse (by intro hc; cases hc)
    | .error e, .error f =>
      if h : e = f then .isTrue (by rw [h])
      else .isFalse (by intro hc; cases hc; exact h rfl)

structure Machine where
  memory : List Int
  pc : Nat
  halted : Bool
  input : List Int
  output : List Int
  relative_base : Int
  constant_input : Option Int
deriving DecidableEq, Repr

/-- `Machine::new` (intcode.rs:59-70); a `Program` is its list of integers. -/
def Machine.new (program : List Int) : Machine :=
  { memory := program
    pc := 0
    halted := false
    input := []
    output := []
    relative_base := 0
    constant_input := none }

/-- `Machine::push_input` (intcode.rs:76-78): `VecDeque::push_back`. -/
def Machine.push_input (m : Machine) (value : Int) : Machine :=
  { m with input := m.input ++ [value] }

/-- `Machine::set_contant_input` (intcode.rs:80-82); source spelling kept. -/
def Machine.set_contant_input (m : Machine) (value : Int) : Machine :=
  { m with constant_input := some value }

/-- `Machine::pop_output` (intcode.rs:84-86): `VecDeque::pop_front`. -/
def Machine.pop_output (m : Machine) : Option Int × Machine :=
  match m.output with
  | [] => (none, m)
  | v :: rest => (some v, { m with output := rest })

/-- `Machine::get_output` (intcode.rs:88-90): drain the whole output queue. -/
def Machine.get_output (m : Machine) : List Int × Machine :=
  (m.output, { m with output := [] })

/-- `Machine::get_data` (intcode.rs:96-100): out-of-range reads default to 0. -/
def Machine.get_data (m : Machine) (address : Nat) : Int :=
  m.memory.getD address 0

/-- `Machine::set_data` (intcode.rs:102-110): grow (zero-filled `resize`)
when `len < address + 1`, then store. -/
def Machine.set_data (m : Machine) (address : Nat) (value : Int) : Machine :=
  let memory :=
    if m.memory.length < address + 1 then
      m.memory ++ List.replicate (address + 1 - m.memory.length) 0
    else
      m.memory
  { m with memory := memory.set address value }

/-- The `opcode /= 10` loop of `Machine::get_param_mode`: truncating
division by 10, `arg` times. -/
def divPow (x : Int) : Nat → Int
  | 0 => x
  | n + 1 => (divPow x n).tdiv 10

/-- Rust `as u8` wrapping cast from `i64`: the low 8 bits. -/
def toU8 (x : Int) : Nat := (x % 256).toNat

/-- `Machine::get_param_mode` (intcode.rs:112-118): divide out the two
opcode digits, then one digit per preceding argument; `% 10` and the
`as u8` cast, then `ParameterMode::try_from`. -/
def get_param_mode (opcode : Int) (arg : Nat) : Except Error ParameterMode :=
  ParameterMode.tryFrom (toU8 ((divPow (opcode.tdiv 100) arg).tmod 10))

/-- `Machine::get_arg` (intcode.rs:120-136): read operand `arg_num` of the
instruction at `pc` under its parameter mode. -/
def Machine.get_arg (m : Machine) (arg_num : Nat) (opcode : Int) : Except Error Int :=
  let arg := m.get_data (m.pc + 1 + arg_num)
  match get_param_mode opcode arg_num with
  | .error e => .error e
  | .ok .Position =>
      if arg < 0 then .error (.InvalidAddress arg)
      else .ok (m.get_data arg.toNat)
  | .ok .Immediate => .ok arg
  | .ok .Relative =>
      let address := arg + m.relative_base
      if address < 0 then .error (.InvalidAddress address)
      else .ok (m.get_data address.toNat)

/-- `Machine::set_return` (intcode.rs:138-148): resolve the write target of
operand `arg_num` and store `value` there. -/
def Machine.set_return (m : Machine) (arg_num : Nat) (value : Int) (opcode : Int) :
    Except Error Machine :=
  let arg := m.get_data (m.pc + 1 + arg_num)
  match get_param_mode opcode arg_num with
  | .error e => .error e
  | .ok .Position =>
      if arg < 0 then .error (.InvalidAddress arg)
      else .ok (m.set_data arg.toNat value)
  | .ok .Immediate => .error (.InvalidInstruction opcode)
  | .ok .Relative =>
      let address := arg + m.relative_base
      if address < 0 then .error (.InvalidAddress address)
      else .ok (m.set_data address.toNat value)

/-- `Machine::bin_op` (intcode.rs:150-155). -/
def Machine.bin_op (m : Machine) (op : Int → Int → Int) (opcode : Int) :
    Except Error Machine :=
  match m.get_arg 0 opcode with
  | .error e => .error e
  | .ok a =>
    match m.get_arg 1 opcode with
    | .error e => .error e
    | .ok b =>
      match m.set_return 2 (op a b) opcode with
      | .error e => .error e
      | .ok m1 => .ok { m1 with pc := m1.pc + 4 }

/-- `Machine::jump_op` (intcode.rs:157-168). -/
def Machine.jump_op (m : Machine) (cmp : Bool) (opcode : Int) :
    Except Error Machine :=
  match m.get_arg 0 opcode with
  | .error e => .error e
  | .ok arg =>
    if (arg != 0) == cmp then
      match m.get_arg 1 opcode with
      | .error e => .error e
      | .ok t =>
        if t < 0 then .error (.InvalidArgument t)
        else .ok { m with pc := t.toNat }
    else
      .ok { m with pc := m.pc + 3 }

/-- Lift a helper that leaves the machine untouched on failure into the
machine-carrying result shape of `step`. -/
def liftR (m : Machine) : Except Error Machine → Machine × Option Error
  | .error e => (m, some e)
  | .ok m1 => (m1, none)

/-- `Machine::step` (intcode.rs:170-211).  Returns the machine as the Rust
`&mut self` leaves it, together with the error if the step failed. -/
def Machine.step (m : Machine) : Machine × Option Error :=
  if m.halted then (m, some .Halted)
  else
    let opcode := m.get_data m.pc
    match opcode.tmod 100 with
    | 1 => liftR m (m.bin_op (fun a b => a + b) opcode)
    | 2 => liftR m (m.bin_op (fun a b => a * b) opcode)
    | 3 =>
      (match m.constant_input with
       | some input =>
         (match m.set_return 0 input opcode with
          | .error e => (m, some e)
          | .ok m1 => ({ m1 with pc := m1.pc + 2 }, none))
       | none =>
         (match m.input with
          | [] => (m, some .NoInput)
          | v :: rest =>
            (match Machine.set_return { m with input := rest } 0 v opcode with
             | .error e => ({ m with input := rest }, some e)
             | .ok m1 => ({ m1 with pc := m1.pc + 2 }, none))))
    | 4 =>
      (match m.get_arg 0 opcode with
       | .error e => (m, some e)
       | .ok out => ({ m with output := m.output ++ [out], pc := m.pc + 2 }, none))
    | 5 => liftR m (m.jump_op true opcode)
    | 6 => liftR m (m.jump_op false opcode)
    | 7 => liftR m (m.bin_op (fun a b => if a < b then 1 else 0) opcode)
    | 8 => liftR m (m.bin_op (fun a b => if a = b then 1 else 0) opcode)
    | 9 =>
      (match m.get_arg 0 opcode with
       | .error e => (m, some e)
       | .ok a => ({ m with relative_base := m.relative_base + a, pc := m.pc + 2 }, none))
    | 99 => ({ m with halted := true }, none)
    | data => (m, some (.InvalidInstruction data))

/-- `Machine::run` (intcode.rs:213-218): `while !halted { step()? }`, with
fuel; `none` means fuel ran out before the loop finished. -/
def Machine.run : Nat → Machine → Option (Machine × Option Error)
  | 0, m => if m.halted then some (m, none) else none
  | fuel + 1, m =>
    if m.halted then some (m, none)
    else
      match m.step with
      | (m1, some e) => some (m1, some e)
      | (m1, none) => Machine.run fuel m1

set_option linter.unusedVariables false in
/-- `Machine::next_output` (intcode.rs:220-232): step until an output can be
popped, the machine is halted (error `Halted`), or a step fails.  Returns
the remaining fuel alongside the machine and the result. -/
def Machine.next_output : Nat → Machine → Option (Nat × Machine × Except Error Int)
  | 0, m => none
  | fuel + 1, m =>
    if m.halted then some (fuel, m, .error .Halted)
    else
      match m.step with
      | (m1, some e) => some (fuel, m1, .error e)
      | (m1, none) =>
        match m1.pop_output with
        | (none, m2) => Machine.next_output fuel m2
        | (some v, m2) => some (fuel, m2, .ok v)

set_option linter.unusedVariables false in
/-- Drive a machine by repeated `next_output` calls, collecting the returned
values in order until a call fails; returns the collected outputs and the
final error (`none` when fuel runs out first). -/
def Machine.drive : Nat → Machine → Option (List Int × Error)
  | 0, m => none
  | fuel + 1, m =>
    if m.halted then some ([], .Halted)
    else
      match m.step with
      | (m1, some e) => some ([], e)
      | (m1, none) =>
        match m1.pop_output with
        | (none, m2) => Machine.drive fuel m2
        | (some v, m2) =>
          match Machine.drive fuel m2 with
          | none => none
          | some (vs, e) => some (v :: vs, e)

end Intcode

namespace Intcode

@[simp] theorem set_data_pc (m : Machine) (a : Nat) (v : Int) : (m.set_data a v).pc = m.pc := rfl

@[simp] theorem set_data_halted (m : Machine) (a : Nat) (v : Int) : (m.set_data a v).halted = m.halted := rfl

@[simp] theorem set_data_input (m : Machine) (a : Nat) (v : Int) : (m.set_data a v).input = m.input := rfl

@[simp] theorem set_data_output (m : Machine) (a : Nat) (v : Int) : (m.set_data a v).output = m.output := rfl

@[simp] theorem set_data_rb (m : Machine) (a : Nat) (v : Int) : (m.set_data a v).relative_base = m.relative_base := rfl

@[simp] theorem set_data_ci (m : Machine) (a : Nat) (v : Int) : (m.set_data a v).constant_input = m.constant_input := rfl

theorem set_data_mem_length (m : Machine) (a : Nat) (v : Int) :
    (m.set_data a v).memory.length = max m.memory.length (a + 1) := by
  unfold Machine.set_data
  split <;> simp <;> omega

theorem set_return_ok {m m1 : Machine} {n : Nat} {v op : Int}
    (h : m.set_return n v op = .ok m1) : ∃ a, m1 = m.set_data a v := by
  simp only [Machine.set_return] at h
  split at h
  · cases h
  · split at h
    · cases h
    · cases h; exact ⟨_, rfl⟩
  · cases h
  · split at h
    · cases h
    · cases h; exact ⟨_, rfl⟩

theorem jump_op_ok {m m1 : Machine} {cmp : Bool} {op : Int}
    (h : m.jump_op cmp op = .ok m1) : ∃ t, m1 = { m with pc := t } := by
  simp only [Machine.jump_op] at h
  split at h
  · cases h
  · split at h
    · split at h
      · cases h
      · split at h
        · cases h
        · cases h; exact ⟨_, rfl⟩
    · cases h; exact ⟨_, rfl⟩

theorem bin_op_ok {m m1 : Machine} {f : Int → Int → Int} {op : Int}
    (h : m.bin_op f op = .ok m1) : ∃ a r, m1 = { m.set_data a r with pc := m.pc + 4 } := by
  simp only [Machine.bin_op] at h
  split at h
  · cases h
  · rename_i a ha
    split at h
    · cases h
    · rename_i b hb
      split at h
      · cases h
      · rename_i m2 hsr
        cases h
        obtain ⟨ad, rfl⟩ := set_return_ok hsr
        exact ⟨ad, f a b, by simp⟩

theorem step_halted {m : Machine} (h : m.halted = true) :
    m.step = (m, some .Halted) := by
  simp [Machine.step, h]

theorem run_halted (fuel : Nat) (m : Machine) (h : m.halted = true) :
    Machine.run fuel m = some (m, none) := by
  cases fuel <;> simp [Machine.run, h]

theorem run_unique : ∀ (f1 : Nat) {m m1 : Machine},
    Machine.run f1 m = some (m1, none) →
    ∀ (f2 : Nat) {m2 : Machine}, Machine.run f2 m = some (m2, none) → m1 = m2 := by
  intro f1
  induction f1 with
  | zero =>
    intro m m1 h1 f2 m2 h2
    by_cases hh : m.halted = true
    · rw [run_halted 0 m hh] at h1
      rw [run_halted f2 m hh] at h2
      cases h1; cases h2; rfl
    · simp [Machine.run, hh] at h1
  | succ g ih =>
    intro m m1 h1 f2 m2 h2
    by_cases hh : m.halted = true
    · rw [run_halted (g + 1) m hh] at h1
      rw [run_halted f2 m hh] at h2
      cases h1; cases h2; rfl
    · simp only [Machine.run, hh, if_false] at h1
      rcases hs : m.step with ⟨m3, e⟩
      rw [hs] at h1
      cases e with
      | some e => simp at h1
      | none =>
        cases f2 with
        | zero => simp [Machine.run, hh] at h2
        | succ g2 =>
          simp only [Machine.run, hh, if_false] at h2
          rw [hs] at h2
          exact ih h1 g2 h2

/-- C1: two Machines constructed from clones of the same program `p` and fed
the same input sequence `inp`, each run to halt (with possibly different
fuel), end with identical memory contents and identical output sequences:
`step`, and hence run-to-halt, is a deterministic function of the state. -/
theorem C1_run_deterministic (p inp : List Int) (f1 f2 : Nat) (m1 m2 : Machine)
    (h1 : Machine.run f1 (inp.foldl Machine.push_input (Machine.new p)) = some (m1, none))
    (h2 : Machine.run f2 (inp.foldl Machine.push_input (Machine.new p)) = some (m2, none)) :
    m1.memory = m2.memory ∧ m1.output = m2.output := by
  obtain rfl := run_unique f1 h1 f2 h2
  exact ⟨rfl, rfl⟩

/-- Witness for C1 at program `[99]` with empty input and fuels 1 and 2. -/
theorem C1_run_deterministic_witness :
    Machine.run 1 (List.foldl Machine.push_input (Machine.new [99]) []) =
      some (Machine.mk [99] 0 true [] [] 0 none, none) ∧
    Machine.run 2 (List.foldl Machine.push_input (Machine.new [99]) []) =
      some (Machine.mk [99] 0 true [] [] 0 none, none) ∧
    ((Machine.mk [99] 0 true [] [] 0 none).memory = (Machine.mk [99] 0 true [] [] 0 none).memory ∧
     (Machine.mk [99] 0 true [] [] 0 none).output = (Machine.mk [99] 0 true [] [] 0 none).output) :=
  ⟨by decide, by decide,
   C1_run_deterministic [99] [] 1 2 _ _ (by decide) (by decide)⟩

/-- C10: calling run-to-halt on an already-halted machine returns success
(not the `Halted` error) after zero steps, leaving the machine unchanged,
while a direct `step` on the same machine fails with `Halted`. -/
theorem C10_run_already_halted (fuel : Nat) (m : Machine) (h : m.halted = true) :
    Machine.run fuel m = some (m, none) ∧ m.step = (m, some .Halted) :=
  ⟨run_halted fuel m h, step_halted h⟩

/-- Witness for C10 at a concrete halted machine. -/
theorem C10_run_already_halted_witness :
    (Machine.mk [99] 0 true [] [] 0 none).halted = true ∧
    (Machine.run 5 (Machine.mk [99] 0 true [] [] 0 none) =
      some (Machine.mk [99] 0 true [] [] 0 none, none) ∧
     (Machine.mk [99] 0 true [] [] 0 none).step =
      (Machine.mk [99] 0 true [] [] 0 none, some .Halted)) :=
  ⟨rfl, C10_run_already_halted 5 (Machine.mk [99] 0 true [] [] 0 none) rfl⟩

end Intcode

namespace Intcode

theorem tmod_nonpos_of_neg {w : Int} (h : w < 0) : w.tmod 100 ≤ 0 := by
  rcases w with n | n
  · simp only [Int.ofNat_eq_coe] at h
    omega
  · show (Int.negSucc n).tmod 100 ≤ 0
    simp only [Int.tmod, Int.ofNat_eq_coe]
    omega

theorem divPow_natCast (n : Nat) : ∀ i : Nat, divPow (n : Int) i = ((n / 10 ^ i : Nat) : Int) := by
  intro i
  induction i with
  | zero => simp [divPow]
  | succ k ih =>
    rw [divPow, ih, Int.tdiv_eq_ediv (Int.natCast_nonneg _) (by norm_num)]
    have hA : n / 10 ^ k / 10 = n / 10 ^ (k + 1) := by
      rw [Nat.div_div_eq_div_mul, pow_succ]
    rw [← hA]
    generalize n / 10 ^ k = A
    omega

theorem get_param_mode_natCast (n i : Nat) :
    get_param_mode (n : Int) i = ParameterMode.tryFrom (n / 100 / 10 ^ i % 10) := by
  unfold get_param_mode
  have h1 : ((n : Int)).tdiv 100 = ((n / 100 : Nat) : Int) := by
    rw [Int.tdiv_eq_ediv (by omega) (by norm_num)]; omega
  rw [h1, divPow_natCast]
  have h2 : (((n / 100 / 10 ^ i : Nat) : Int)).tmod 10 = ((n / 100 / 10 ^ i % 10 : Nat) : Int) := by
    rw [Int.tmod_eq_emod (Int.natCast_nonneg _) (by norm_num)]
    generalize n / 100 / 10 ^ i = A
    omega
  rw [h2]
  have h3 : toU8 ((n / 100 / 10 ^ i % 10 : Nat) : Int) = n / 100 / 10 ^ i % 10 := by
    unfold toU8
    have : n / 100 / 10 ^ i % 10 < 10 := Nat.mod_lt _ (by norm_num)
    generalize hA : n / 100 / 10 ^ i % 10 = A at this ⊢
    omega
  rw [h3]

/-- C4: for a non-negative instruction word `w`, the parameter mode of
operand `i` is the decimal digit `w / 100 / 10 ^ i % 10` (0 = Position,
1 = Immediate, 2 = Relative, anything else fails with
`InvalidParameterMode` carrying that digit); short words default to
Position; and negative instruction words never reach mode extraction:
`step` rejects them directly with `InvalidInstruction`. -/
theorem C4_param_mode_digit (w : Int) (i : Nat) (hw : 0 ≤ w) :
    (get_param_mode w i =
      (if w.toNat / 100 / 10 ^ i % 10 = 0 then .ok .Position
       else if w.toNat / 100 / 10 ^ i % 10 = 1 then .ok .Immediate
       else if w.toNat / 100 / 10 ^ i % 10 = 2 then .ok .Relative
       else .error (.InvalidParameterMode (w.toNat / 100 / 10 ^ i % 10)))) ∧
    (w.toNat < 100 * 10 ^ i → get_param_mode w i = .ok .Position) ∧
    (∀ m : Machine, m.halted = false → m.get_data m.pc < 0 →
      m.step = (m, some (.InvalidInstruction ((m.get_data m.pc).tmod 100)))) := by
  have hcast : get_param_mode w i = ParameterMode.tryFrom (w.toNat / 100 / 10 ^ i % 10) := by
    rw [← Int.toNat_of_nonneg hw, get_param_mode_natCast, Int.toNat_ofNat]
  refine ⟨?_, ?_, ?_⟩
  · rw [hcast]
    have hlt : w.toNat / 100 / 10 ^ i % 10 < 10 := Nat.mod_lt _ (by norm_num)
    set d := w.toNat / 100 / 10 ^ i % 10 with hd
    interval_cases d <;> rfl
  · intro hsmall
    rw [hcast]
    have h100 : w.toNat / 100 < 10 ^ i := by
      rw [Nat.div_lt_iff_lt_mul (by norm_num : (0:Nat) < 100)]
      omega
    rw [Nat.div_eq_of_lt h100]
    rfl
  · intro m hh hneg
    have ht : (m.get_data m.pc).tmod 100 ≤ 0 := tmod_nonpos_of_neg hneg
    simp only [Machine.step, hh, Bool.false_eq_true, if_false]
    split <;> first | omega | rfl

/-- Witness for C4 at instruction word 1002, operand 1 (Immediate mode). -/
theorem C4_param_mode_digit_witness :
    (0 ≤ (1002 : Int)) ∧ get_param_mode 1002 1 = .ok .Immediate :=
  ⟨by decide, ((C4_param_mode_digit 1002 1 (by decide)).1).trans (by decide)⟩

/-- C5: a write target in Position mode resolves to the raw parameter, in
Relative mode to the raw parameter plus `relative_base`, and in Immediate
mode fails with `InvalidInstruction`; a negative resolved target address
fails with `InvalidAddress`. -/
theorem C5_write_target (m : Machine) (n : Nat) (v op : Int) :
    (get_param_mode op n = .ok .Immediate →
      m.set_return n v op = .error (.InvalidInstruction op)) ∧
    (get_param_mode op n = .ok .Position →
      (0 ≤ m.get_data (m.pc + 1 + n) →
        m.set_return n v op = .ok (m.set_data (m.get_data (m.pc + 1 + n)).toNat v)) ∧
      (m.get_data (m.pc + 1 + n) < 0 →
        m.set_return n v op = .error (.InvalidAddress (m.get_data (m.pc + 1 + n))))) ∧
    (get_param_mode op n = .ok .Relative →
      (0 ≤ m.get_data (m.pc + 1 + n) + m.relative_base →
        m.set_return n v op =
          .ok (m.set_data (m.get_data (m.pc + 1 + n) + m.relative_base).toNat v)) ∧
      (m.get_data (m.pc + 1 + n) + m.relative_base < 0 →
        m.set_return n v op =
          .error (.InvalidAddress (m.get_data (m.pc + 1 + n) + m.relative_base)))) := by
  refine ⟨fun h => ?_, fun h => ⟨fun h2 => ?_, fun h2 => ?_⟩, fun h => ⟨fun h2 => ?_, fun h2 => ?_⟩⟩
  · simp [Machine.set_return, h]
  · simp [Machine.set_return, h, show ¬(m.get_data (m.pc + 1 + n) < 0) from by omega]
  · simp [Machine.set_return, h, h2]
  · simp [Machine.set_return, h,
      show ¬(m.get_data (m.pc + 1 + n) + m.relative_base < 0) from by omega]
  · simp [Machine.set_return, h, h2]

/-- Witness for C5: immediate-mode write target (word 11101, operand 2)
fails with `InvalidInstruction`. -/
theorem C5_write_target_witness :
    get_param_mode 11101 2 = .ok .Immediate ∧
    (Machine.new [11101]).set_return 2 5 11101 = .error (.InvalidInstruction 11101) :=
  ⟨by decide, (C5_write_target (Machine.new [11101]) 2 5 11101).1 (by decide)⟩

/-- C7: reads beyond the current memory length return 0; a write at or
beyond the current length grows memory to exactly `address + 1` cells,
zero-filling the gap before storing, so intermediate untouched addresses
still read 0 afterwards. -/
theorem C7_memory_growth (m : Machine) (a b c : Nat) (v : Int)
    (ha : m.memory.length ≤ a) (hb : m.memory.length ≤ b)
    (hc : m.memory.length ≤ c) (hca : c < a) :
    m.get_data b = 0 ∧
    (m.set_data a v).memory.length = a + 1 ∧
    (m.set_data a v).get_data a = v ∧
    (m.set_data a v).get_data c = 0 := by
  have hlt : m.memory.length < a + 1 := by omega
  have hmem : (m.set_data a v).memory
      = (m.memory ++ List.replicate (a + 1 - m.memory.length) 0).set a v := by
    simp [Machine.set_data, hlt]
  have hlen : (m.set_data a v).memory.length = a + 1 := by
    rw [hmem, List.length_set, List.length_append, List.length_replicate]; omega
  refine ⟨List.getD_eq_default _ _ hb, hlen, ?_, ?_⟩
  · show (m.set_data a v).memory.getD a 0 = v
    rw [hmem, List.getD_eq_getElem?_getD,
      List.getElem?_set_self (by simp; omega), Option.getD_some]
  · show (m.set_data a v).memory.getD c 0 = 0
    rw [hmem, List.getD_eq_getElem?_getD, List.getElem?_set_ne (by omega),
      ← List.getD_eq_getElem?_getD, List.getD_append_right _ _ _ _ hc,
      List.getD_eq_getElem _ _ (by simp; omega), List.getElem_replicate]

/-- Witness for C7 with memory `[1, 2]`, write at 5, reads at 7 and 3. -/
theorem C7_memory_growth_witness :
    ((Machine.new [1, 2]).memory.length ≤ 5 ∧ (Machine.new [1, 2]).memory.length ≤ 7 ∧
     (Machine.new [1, 2]).memory.length ≤ 3 ∧ 3 < 5) ∧
    ((Machine.new [1, 2]).get_data 7 = 0 ∧
     ((Machine.new [1, 2]).set_data 5 9).memory.length = 5 + 1 ∧
     ((Machine.new [1, 2]).set_data 5 9).get_data 5 = 9 ∧
     ((Machine.new [1, 2]).set_data 5 9).get_data 3 = 0) :=
  ⟨by decide,
   C7_memory_growth (Machine.new [1, 2]) 5 7 3 9 (by decide) (by decide) (by decide) (by decide)⟩

end Intcode

namespace Intcode

theorem liftR_err {m m1 : Machine} {r : Except Error Machine} {e : Error}
    (h : liftR m r = (m1, some e)) : m1 = m := by
  cases r with
  | error e2 => simp [liftR] at h; exact h.1.symm
  | ok m2 => simp [liftR] at h

theorem step_err_state {m m1 : Machine} {e : Error} (h : m.step = (m1, some e)) :
    m1.pc = m.pc ∧ m1.relative_base = m.relative_base ∧ m1.halted = m.halted ∧
    m1.memory = m.memory ∧ m1.output = m.output ∧
    (m1.input = m.input ∨
      (m.constant_input = none ∧ (m.get_data m.pc).tmod 100 = 3 ∧
       ∃ v, m.input = v :: m1.input)) := by
  by_cases hh : m.halted = true
  · rw [step_halted hh] at h
    simp only [Prod.mk.injEq, Option.some.injEq] at h
    obtain ⟨rfl, rfl⟩ := h
    exact ⟨rfl, rfl, rfl, rfl, rfl, Or.inl rfl⟩
  · have hf : m.halted = false := by simpa using hh
    simp only [Machine.step, hh, Bool.false_eq_true, if_false] at h
    split at h
    · obtain rfl := liftR_err h
      exact ⟨rfl, rfl, rfl, rfl, rfl, Or.inl rfl⟩
    · obtain rfl := liftR_err h
      exact ⟨rfl, rfl, rfl, rfl, rfl, Or.inl rfl⟩
    · rename_i ht3
      split at h
      · split at h
        · simp only [Prod.mk.injEq, Option.some.injEq] at h
          obtain ⟨rfl, rfl⟩ := h
          exact ⟨rfl, rfl, rfl, rfl, rfl, Or.inl rfl⟩
        · simp at h
      · rename_i hci
        split at h
        · simp only [Prod.mk.injEq, Option.some.injEq] at h
          obtain ⟨rfl, rfl⟩ := h
          exact ⟨rfl, rfl, rfl, rfl, rfl, Or.inl rfl⟩
        · rename_i v rest hin
          split at h
          · simp only [Prod.mk.injEq, Option.some.injEq] at h
            obtain ⟨rfl, rfl⟩ := h
            exact ⟨rfl, rfl, hf.symm, rfl, rfl, Or.inr ⟨hci, ht3, v, by rw [hin]⟩⟩
          · simp at h
    · split at h
      · simp only [Prod.mk.injEq, Option.some.injEq] at h
        obtain ⟨rfl, rfl⟩ := h
        exact ⟨rfl, rfl, rfl, rfl, rfl, Or.inl rfl⟩
      · simp at h
    · obtain rfl := liftR_err h
      exact ⟨rfl, rfl, rfl, rfl, rfl, Or.inl rfl⟩
    · obtain rfl := liftR_err h
      exact ⟨rfl, rfl, rfl, rfl, rfl, Or.inl rfl⟩
    · obtain rfl := liftR_err h
      exact ⟨rfl, rfl, rfl, rfl, rfl, Or.inl rfl⟩
    · obtain rfl := liftR_err h
      exact ⟨rfl, rfl, rfl, rfl, rfl, Or.inl rfl⟩
    · split at h
      · simp only [Prod.mk.injEq, Option.some.injEq] at h
        obtain ⟨rfl, rfl⟩ := h
        exact ⟨rfl, rfl, rfl, rfl, rfl, Or.inl rfl⟩
      · simp at h
    · simp at h
    · simp only [Prod.mk.injEq, Option.some.injEq] at h
      obtain ⟨rfl, rfl⟩ := h
      exact ⟨rfl, rfl, rfl, rfl, rfl, Or.inl rfl⟩

/-- C2 counterexample: the input instruction `103` (immediate-mode write
target) with input queue `[5]` fails with `InvalidInstruction 103`, yet the
failing step leaves the input queue emptied, not unmodified. -/
theorem C2_counterexample :
    ((Machine.mk [103, 0] 0 false [5] [] 0 none).step).2
        = some (.InvalidInstruction 103) ∧
    ¬(((Machine.mk [103, 0] 0 false [5] [] 0 none).step).1.input
        = (Machine.mk [103, 0] 0 false [5] [] 0 none).input) := by
  decide

set_option linter.unusedVariables false in
/-- C2 (amended): if `step` fails with `InvalidAddress`,
`InvalidParameterMode` or `InvalidInstruction`, then `pc`, `relative_base`,
`halted`, `memory` and the output queue are unmodified; the input queue is
also unmodified *except* when the failing instruction is an input
instruction (opcode 3) without constant-input, which has already popped the
front of the queue before the failing write. -/
theorem C2_failing_step_state (m m1 : Machine) (e : Error)
    (h : m.step = (m1, some e))
    (he : (∃ a, e = .InvalidAddress a) ∨ (∃ d, e = .InvalidParameterMode d) ∨
          (∃ c, e = .InvalidInstruction c)) :
    m1.pc = m.pc ∧ m1.relative_base = m.relative_base ∧ m1.halted = m.halted ∧
    m1.memory = m.memory ∧ m1.output = m.output ∧
    (m1.input = m.input ∨
      (m.constant_input = none ∧ (m.get_data m.pc).tmod 100 = 3 ∧
       ∃ v, m.input = v :: m1.input)) :=
  step_err_state h

/-- Witness for C2 (amended): opcode 1 with a negative position-mode
operand fails with `InvalidAddress` and leaves the machine unchanged. -/
theorem C2_failing_step_state_witness :
    (Machine.mk [1, -1, 0, 0] 0 false [] [] 0 none).step
        = (Machine.mk [1, -1, 0, 0] 0 false [] [] 0 none, some (.InvalidAddress (-1))) ∧
    (Machine.mk [1, -1, 0, 0] 0 false [] [] 0 none).pc
        = (Machine.mk [1, -1, 0, 0] 0 false [] [] 0 none).pc :=
  ⟨by decide,
   (C2_failing_step_state (Machine.mk [1, -1, 0, 0] 0 false [] [] 0 none)
      (Machine.mk [1, -1, 0, 0] 0 false [] [] 0 none) (.InvalidAddress (-1))
      (by decide) (Or.inl ⟨-1, rfl⟩)).1⟩

/-- C3: for an input instruction (opcode 3): a set constant-input is
written via `set_return` and the input queue is untouched; otherwise a
non-empty queue is popped and its front written; otherwise the step fails
with `NoInput`.  Precedence is exactly override first, else queue, else
fail. -/
theorem C3_input_precedence (m : Machine) (hh : m.halted = false)
    (h3 : (m.get_data m.pc).tmod 100 = 3) :
    (∀ c, m.constant_input = some c →
      (m.step =
        (match m.set_return 0 c (m.get_data m.pc) with
         | .error e => (m, some e)
         | .ok m1 => ({ m1 with pc := m1.pc + 2 }, none)) ∧
       (m.step).1.input = m.input)) ∧
    (m.constant_input = none → ∀ v rest, m.input = v :: rest →
      m.step =
        (match Machine.set_return { m with input := rest } 0 v (m.get_data m.pc) with
         | .error e => ({ m with input := rest }, some e)
         | .ok m1 => ({ m1 with pc := m1.pc + 2 }, none))) ∧
    (m.constant_input = none → m.input = [] → m.step = (m, some .NoInput)) := by
  refine ⟨?_, ?_, ?_⟩
  · intro c hc
    have hstep : m.step =
        (match m.set_return 0 c (m.get_data m.pc) with
         | .error e => (m, some e)
         | .ok m1 => ({ m1 with pc := m1.pc + 2 }, none)) := by
      simp only [Machine.step, hh, Bool.false_eq_true, if_false, h3, hc]
    refine ⟨hstep, ?_⟩
    rw [hstep]
    rcases hsr : m.set_return 0 c (m.get_data m.pc) with e | m1
    · rfl
    · obtain ⟨a, rfl⟩ := set_return_ok hsr
      simp
  · intro hc v rest hv
    simp only [Machine.step, hh, Bool.false_eq_true, if_false, h3, hc, hv]
  · intro hc he
    simp only [Machine.step, hh, Bool.false_eq_true, if_false, h3, hc, he]

/-- Witness for C3: program `[3,0,99]` with empty queue and no
constant-input fails with `NoInput`. -/
theorem C3_input_precedence_witness :
    (Machine.new [3, 0, 99]).halted = false ∧
    ((Machine.new [3, 0, 99]).get_data (Machine.new [3, 0, 99]).pc).tmod 100 = 3 ∧
    (Machine.new [3, 0, 99]).step = (Machine.new [3, 0, 99], some .NoInput) :=
  ⟨rfl, by decide,
   (C3_input_precedence (Machine.new [3, 0, 99]) rfl (by decide)).2.2 rfl rfl⟩

end Intcode

namespace Intcode

/-- The relative-base quine program from the spec's test list. -/
def quineProg : List Int :=
  [109, 1, 204, -1, 1001, 100, 1, 100, 1008, 100, 16, 101, 1006, 101, 0, 99]

set_option maxRecDepth 100000 in
/-- C6: running the quine program to halt succeeds and its output queue
holds exactly the sixteen integers of the program, in order. -/
theorem C6_quine_outputs_itself :
    (Machine.run 100 (Machine.new quineProg)).map (fun r => (r.1.output, r.2))
      = some (quineProg, none) := by
  decide

end Intcode

namespace Intcode

theorem set_data_mem_le (m : Machine) (a : Nat) (v : Int) :
    m.memory.length ≤ (m.set_data a v).memory.length := by
  rw [set_data_mem_length]; omega

theorem bin_op_mem {m m2 : Machine} {f : Int → Int → Int} {op : Int}
    (h : m.bin_op f op = .ok m2) : m.memory.length ≤ m2.memory.length := by
  obtain ⟨a, r, rfl⟩ := bin_op_ok h
  exact set_data_mem_le m a r

theorem liftR_fst_mem {m m1 : Machine} {r : Option Error} {x : Except Error Machine}
    (hs : liftR m x = (m1, r))
    (hok : ∀ m2, x = .ok m2 → m.memory.length ≤ m2.memory.length) :
    m.memory.length ≤ m1.memory.length := by
  cases x with
  | error e =>
    simp only [liftR, Prod.mk.injEq] at hs
    obtain ⟨rfl, -⟩ := hs
    exact Nat.le_refl _
  | ok m2 =>
    simp only [liftR, Prod.mk.injEq] at hs
    obtain ⟨rfl, -⟩ := hs
    exact hok m2 rfl

theorem step_mem_mono (m : Machine) : m.memory.length ≤ ((m.step).1).memory.length := by
  rcases hs : m.step with ⟨m1, r⟩
  show m.memory.length ≤ m1.memory.length
  by_cases hh : m.halted = true
  · rw [step_halted hh] at hs
    simp only [Prod.mk.injEq] at hs
    obtain ⟨rfl, -⟩ := hs
    exact Nat.le_refl _
  · simp only [Machine.step, hh, Bool.false_eq_true, if_false] at hs
    split at hs
    · exact liftR_fst_mem hs (fun m2 h2 => bin_op_mem h2)
    · exact liftR_fst_mem hs (fun m2 h2 => bin_op_mem h2)
    · split at hs
      · split at hs
        · simp only [Prod.mk.injEq] at hs
          obtain ⟨rfl, -⟩ := hs
          exact Nat.le_refl _
        · rename_i m2 hsr
          simp only [Prod.mk.injEq] at hs
          obtain ⟨rfl, -⟩ := hs
          obtain ⟨a, rfl⟩ := set_return_ok hsr
          exact set_data_mem_le m a _
      · split at hs
        · simp only [Prod.mk.injEq] at hs
          obtain ⟨rfl, -⟩ := hs
          exact Nat.le_refl _
        · rename_i v rest hin
          split at hs
          · simp only [Prod.mk.injEq] at hs
            obtain ⟨rfl, -⟩ := hs
            exact Nat.le_refl _
          · rename_i m2 hsr
            simp only [Prod.mk.injEq] at hs
            obtain ⟨rfl, -⟩ := hs
            obtain ⟨a, rfl⟩ := set_return_ok hsr
            exact set_data_mem_le _ a _
    · split at hs
      · simp only [Prod.mk.injEq] at hs
        obtain ⟨rfl, -⟩ := hs
        exact Nat.le_refl _
      · simp only [Prod.mk.injEq] at hs
        obtain ⟨rfl, -⟩ := hs
        exact Nat.le_refl _
    · exact liftR_fst_mem hs (fun m2 h2 => by obtain ⟨t, rfl⟩ := jump_op_ok h2; exact Nat.le_refl _)
    · exact liftR_fst_mem hs (fun m2 h2 => by obtain ⟨t, rfl⟩ := jump_op_ok h2; exact Nat.le_refl _)
    · exact liftR_fst_mem hs (fun m2 h2 => bin_op_mem h2)
    · exact liftR_fst_mem hs (fun m2 h2 => bin_op_mem h2)
    · split at hs
      · simp only [Prod.mk.injEq] at hs
        obtain ⟨rfl, -⟩ := hs
        exact Nat.le_refl _
      · simp only [Prod.mk.injEq] at hs
        obtain ⟨rfl, -⟩ := hs
        exact Nat.le_refl _
    · simp only [Prod.mk.injEq] at hs
      obtain ⟨rfl, -⟩ := hs
      exact Nat.le_refl _
    · simp only [Prod.mk.injEq] at hs
      obtain ⟨rfl, -⟩ := hs
      exact Nat.le_refl _

theorem run_mem_mono : ∀ (f : Nat) {m m1 : Machine} {r : Option Error},
    Machine.run f m = some (m1, r) → m.memory.length ≤ m1.memory.length := by
  intro f
  induction f with
  | zero =>
    intro m m1 r h
    by_cases hh : m.halted = true
    · rw [run_halted 0 m hh] at h
      simp only [Option.some.injEq, Prod.mk.injEq] at h
      obtain ⟨rfl, -⟩ := h
      exact Nat.le_refl _
    · simp [Machine.run, hh] at h
  | succ g ih =>
    intro m m1 r h
    by_cases hh : m.halted = true
    · rw [run_halted _ _ hh] at h
      simp only [Option.some.injEq, Prod.mk.injEq] at h
      obtain ⟨rfl, -⟩ := h
      exact Nat.le_refl _
    · simp only [Machine.run, hh, Bool.false_eq_true, if_false] at h
      rcases hs : m.step with ⟨m2, r2⟩
      rw [hs] at h
      have hmem : m.memory.length ≤ m2.memory.length := by
        have h2 := step_mem_mono m
        rw [hs] at h2
        exact h2
      cases r2 with
      | some e =>
        simp only [Option.some.injEq, Prod.mk.injEq] at h
        obtain ⟨rfl, -⟩ := h
        exact hmem
      | none => exact Nat.le_trans hmem (ih h)

theorem pop_output_mem {m : Machine} {o : Option Int} {m2 : Machine}
    (h : m.pop_output = (o, m2)) : m2.memory = m.memory := by
  unfold Machine.pop_output at h
  split at h <;> (simp only [Prod.mk.injEq] at h; obtain ⟨-, rfl⟩ := h; rfl)

theorem next_output_mem_mono :
    ∀ (f : Nat) {m : Machine} {f1 : Nat} {m1 : Machine} {res : Except Error Int},
    Machine.next_output f m = some (f1, m1, res) →
    m.memory.length ≤ m1.memory.length := by
  intro f
  induction f with
  | zero => intro m f1 m1 res h; simp [Machine.next_output] at h
  | succ g ih =>
    intro m f1 m1 res h
    by_cases hh : m.halted = true
    · simp only [Machine.next_output, hh, if_true] at h
      simp only [Option.some.injEq, Prod.mk.injEq] at h
      obtain ⟨-, rfl, -⟩ := h
      exact Nat.le_refl _
    · simp only [Machine.next_output, hh, Bool.false_eq_true, if_false] at h
      rcases hs : m.step with ⟨m2, r2⟩
      rw [hs] at h
      have hmem : m.memory.length ≤ m2.memory.length := by
        have h2 := step_mem_mono m
        rw [hs] at h2
        exact h2
      cases r2 with
      | some e =>
        simp only [Option.some.injEq, Prod.mk.injEq] at h
        obtain ⟨-, rfl, -⟩ := h
        exact hmem
      | none =>
        rcases hp : m2.pop_output with ⟨o, m3⟩
        have h2 : (match m2.pop_output with
            | (none, m4) => Machine.next_output g m4
            | (some v, m4) => some (g, m4, Except.ok v)) = some (f1, m1, res) := h
        rw [hp] at h2
        have hm3 : m.memory.length ≤ m3.memory.length := by
          rw [pop_output_mem hp]
          exact hmem
        cases o with
        | none => exact Nat.le_trans hm3 (ih h2)
        | some v =>
          simp only [Option.some.injEq, Prod.mk.injEq] at h2
          obtain ⟨-, rfl, -⟩ := h2
          exact hm3

set_option linter.unusedVariables false in
/-- C9: memory never shrinks: `step` (all opcode cases, success or
failure), run-to-halt, next-output, direct memory writes, and the queue
operations each leave the memory length greater than or equal to what it
was before. -/
theorem C9_memory_never_shrinks :
    (∀ m : Machine, m.memory.length ≤ ((m.step).1).memory.length) ∧
    (∀ (f : Nat) (m m1 : Machine) (r : Option Error),
      Machine.run f m = some (m1, r) → m.memory.length ≤ m1.memory.length) ∧
    (∀ (f : Nat) (m : Machine) (f1 : Nat) (m1 : Machine) (res : Except Error Int),
      Machine.next_output f m = some (f1, m1, res) → m.memory.length ≤ m1.memory.length) ∧
    (∀ (m : Machine) (a : Nat) (v : Int), m.memory.length ≤ ((m.set_data a v).memory.length)) ∧
    (∀ (m : Machine) (v : Int), (m.push_input v).memory = m.memory) ∧
    (∀ m : Machine, ((m.pop_output).2).memory = m.memory) ∧
    (∀ m : Machine, ((m.get_output).2).memory = m.memory) ∧
    (∀ (m : Machine) (v : Int), (m.set_contant_input v).memory = m.memory) :=
  ⟨step_mem_mono,
   fun f m m1 r h => run_mem_mono f h,
   fun f m f1 m1 res h => next_output_mem_mono f h,
   set_data_mem_le,
   fun _ _ => rfl,
   fun m => pop_output_mem rfl,
   fun _ => rfl,
   fun _ _ => rfl⟩

/-- Witness for C9: a run of program `[99]` does not shrink memory. -/
theorem C9_memory_never_shrinks_witness :
    Machine.run 1 (Machine.new [99]) = some (Machine.mk [99] 0 true [] [] 0 none, none) ∧
    (Machine.new [99]).memory.length ≤ (Machine.mk [99] 0 true [] [] 0 none).memory.length :=
  ⟨by decide,
   C9_memory_never_shrinks.2.1 1 (Machine.new [99])
     (Machine.mk [99] 0 true [] [] 0 none) none (by decide)⟩

end Intcode

namespace Intcode

/-- The machine `m` with its output queue replaced by `o`; `step` never
reads the output queue, so machines related this way step in lockstep. -/
def withOutput (m : Machine) (o : List Int) : Machine := { m with output := o }

@[simp] theorem withOutput_memory (m : Machine) (o : List Int) : (withOutput m o).memory = m.memory := rfl

@[simp] theorem withOutput_pc (m : Machine) (o : List Int) : (withOutput m o).pc = m.pc := rfl

@[simp] theorem withOutput_halted (m : Machine) (o : List Int) : (withOutput m o).halted = m.halted := rfl

@[simp] theorem withOutput_input (m : Machine) (o : List Int) : (withOutput m o).input = m.input := rfl

@[simp] theorem withOutput_output (m : Machine) (o : List Int) : (withOutput m o).output = o := rfl

@[simp] theorem withOutput_rb (m : Machine) (o : List Int) : (withOutput m o).relative_base = m.relative_base := rfl

@[simp] theorem withOutput_ci (m : Machine) (o : List Int) : (withOutput m o).constant_input = m.constant_input := rfl

@[simp] theorem get_data_withOutput (m : Machine) (o : List Int) (a : Nat) :
    (withOutput m o).get_data a = m.get_data a := rfl

@[simp] theorem get_arg_withOutput (m : Machine) (o : List Int) (n : Nat) (op : Int) :
    (withOutput m o).get_arg n op = m.get_arg n op := rfl

@[simp] theorem set_data_withOutput (m : Machine) (o : List Int) (a : Nat) (v : Int) :
    (withOutput m o).set_data a v = withOutput (m.set_data a v) o := rfl

theorem set_return_withOutput (m : Machine) (o : List Int) (n : Nat) (v op : Int) :
    (withOutput m o).set_return n v op
      = (m.set_return n v op).map (fun m2 => withOutput m2 o) := by
  simp only [Machine.set_return, get_data_withOutput, withOutput_pc, withOutput_rb,
    set_data_withOutput]
  cases get_param_mode op n with
  | error e => rfl
  | ok pm =>
    cases pm with
    | Position =>
      by_cases hc : m.get_data (m.pc + 1 + n) < 0 <;> simp [hc, Except.map]
    | Immediate => rfl
    | Relative =>
      by_cases hc : m.get_data (m.pc + 1 + n) + m.relative_base < 0 <;> simp [hc, Except.map]

theorem bin_op_withOutput (m : Machine) (o : List Int) (f : Int → Int → Int) (op : Int) :
    (withOutput m o).bin_op f op = (m.bin_op f op).map (fun m2 => withOutput m2 o) := by
  rcases h0 : m.get_arg 0 op with e | a
  · simp [Machine.bin_op, h0, Except.map]
  · rcases h1 : m.get_arg 1 op with e | b
    · simp [Machine.bin_op, h0, h1, Except.map]
    · rcases h2 : m.set_return 2 (f a b) op with e | m2
      · simp [Machine.bin_op, h0, h1, h2, Except.map, set_return_withOutput]
      · simp only [Machine.bin_op, get_arg_withOutput, h0, h1, set_return_withOutput, h2,
          Except.map, withOutput_pc]
        rfl

theorem jump_op_withOutput (m : Machine) (o : List Int) (c : Bool) (op : Int) :
    (withOutput m o).jump_op c op = (m.jump_op c op).map (fun m2 => withOutput m2 o) := by
  simp only [Machine.jump_op, get_arg_withOutput, withOutput_pc]
  cases m.get_arg 0 op with
  | error e => rfl
  | ok arg =>
    by_cases hb : ((arg != 0) == c) = true
    · simp only [hb, if_true]
      cases m.get_arg 1 op with
      | error e => rfl
      | ok t =>
        by_cases ht : t < 0 <;> simp [ht, Except.map] <;> rfl
    · simp only [hb, if_false]
      rfl

end Intcode

namespace Intcode

theorem liftR_withOutput_aux {m m1 : Machine} {r : Option Error} {x : Except Error Machine}
    (hs : liftR m x = (m1, r)) (o : List Int)
    (hout : ∀ m2, x = .ok m2 → m2.output = m.output) :
    m1.output = m.output ++ ([] : List Int) ∧ (([] : List Int)).length ≤ 1 ∧
    liftR (withOutput m o) (x.map (fun m2 => withOutput m2 o)) =
      (withOutput m1 (o ++ ([] : List Int)), r) := by
  cases x with
  | error e =>
    simp only [liftR, Prod.mk.injEq] at hs
    obtain ⟨rfl, rfl⟩ := hs
    simp [liftR, Except.map]
  | ok m2 =>
    simp only [liftR, Prod.mk.injEq] at hs
    obtain ⟨rfl, rfl⟩ := hs
    simp [liftR, Except.map, hout m2 rfl]

set_option maxHeartbeats 1000000 in
theorem step_withOutput {m m1 : Machine} {r : Option Error} (hs : m.step = (m1, r))
    (o : List Int) :
    ∃ d : List Int, m1.output = m.output ++ d ∧ d.length ≤ 1 ∧
      Machine.step (withOutput m o) = (withOutput m1 (o ++ d), r) := by
  by_cases hh : m.halted = true
  · rw [step_halted hh] at hs
    simp only [Prod.mk.injEq] at hs
    obtain ⟨rfl, rfl⟩ := hs
    refine ⟨[], by simp, by simp, ?_⟩
    rw [step_halted (show (withOutput m o).halted = true from hh)]
    simp [withOutput]
  · simp only [Machine.step, hh, Bool.false_eq_true, if_false] at hs
    simp only [Machine.step, get_data_withOutput, get_arg_withOutput, set_return_withOutput,
      withOutput_memory, withOutput_pc, withOutput_halted, withOutput_ci, withOutput_input,
      withOutput_rb, withOutput_output, hh, Bool.false_eq_true, if_false]
    split at hs
    · refine ⟨[], ?_⟩
      rw [bin_op_withOutput]
      exact liftR_withOutput_aux hs o
        (fun m2 h2 => by obtain ⟨a, rr, rfl⟩ := bin_op_ok h2; rfl)
    · refine ⟨[], ?_⟩
      rw [bin_op_withOutput]
      exact liftR_withOutput_aux hs o
        (fun m2 h2 => by obtain ⟨a, rr, rfl⟩ := bin_op_ok h2; rfl)
    · rcases hc : m.constant_input with _ | c
      · simp only [hc] at hs ⊢
        rcases hin : m.input with _ | ⟨v, rest⟩
        · simp only [hin] at hs ⊢
          simp only [Prod.mk.injEq] at hs
          obtain ⟨rfl, rfl⟩ := hs
          exact ⟨[], by simp, by simp, by simp [withOutput]⟩
        · simp only [hin] at hs ⊢
          rw [show (Machine.mk m.memory m.pc false rest o m.relative_base none)
              = withOutput (Machine.mk m.memory m.pc false rest m.output
                  m.relative_base none) o from rfl,
            set_return_withOutput]
          rcases hsr : Machine.set_return
              (Machine.mk m.memory m.pc false rest m.output m.relative_base none)
              0 v (m.get_data m.pc) with e | m2
          · simp only [hsr] at hs
            simp only [Prod.mk.injEq] at hs
            obtain ⟨rfl, rfl⟩ := hs
            exact ⟨[], by simp, by simp, by simp [hsr, Except.map, withOutput]⟩
          · simp only [hsr] at hs
            simp only [Prod.mk.injEq] at hs
            obtain ⟨rfl, rfl⟩ := hs
            obtain ⟨a, rfl⟩ := set_return_ok hsr
            exact ⟨[], by simp, by simp, by simp [hsr, Except.map, withOutput]⟩
      · simp only [hc] at hs ⊢
        rcases hsr : m.set_return 0 c (m.get_data m.pc) with e | m2
        · simp only [hsr] at hs
          simp only [Prod.mk.injEq] at hs
          obtain ⟨rfl, rfl⟩ := hs
          exact ⟨[], by simp, by simp, by simp [hsr, Except.map, withOutput]⟩
        · simp only [hsr] at hs
          simp only [Prod.mk.injEq] at hs
          obtain ⟨rfl, rfl⟩ := hs
          obtain ⟨a, rfl⟩ := set_return_ok hsr
          exact ⟨[], by simp, by simp, by simp [hsr, Except.map, withOutput]⟩
    · rcases ha : m.get_arg 0 (m.get_data m.pc) with e | out
      · simp only [ha] at hs ⊢
        simp only [Prod.mk.injEq] at hs
        obtain ⟨rfl, rfl⟩ := hs
        exact ⟨[], by simp, by simp, by simp [withOutput]⟩
      · simp only [ha] at hs ⊢
        simp only [Prod.mk.injEq] at hs
        obtain ⟨rfl, rfl⟩ := hs
        exact ⟨[out], by simp, by simp, by simp [withOutput]⟩
    · refine ⟨[], ?_⟩
      rw [jump_op_withOutput]
      exact liftR_withOutput_aux hs o
        (fun m2 h2 => by obtain ⟨t, rfl⟩ := jump_op_ok h2; rfl)
    · refine ⟨[], ?_⟩
      rw [jump_op_withOutput]
      exact liftR_withOutput_aux hs o
        (fun m2 h2 => by obtain ⟨t, rfl⟩ := jump_op_ok h2; rfl)
    · refine ⟨[], ?_⟩
      rw [bin_op_withOutput]
      exact liftR_withOutput_aux hs o
        (fun m2 h2 => by obtain ⟨a, rr, rfl⟩ := bin_op_ok h2; rfl)
    · refine ⟨[], ?_⟩
      rw [bin_op_withOutput]
      exact liftR_withOutput_aux hs o
        (fun m2 h2 => by obtain ⟨a, rr, rfl⟩ := bin_op_ok h2; rfl)
    · rcases ha : m.get_arg 0 (m.get_data m.pc) with e | a
      · simp only [ha] at hs ⊢
        simp only [Prod.mk.injEq] at hs
        obtain ⟨rfl, rfl⟩ := hs
        exact ⟨[], by simp, by simp, by simp [withOutput]⟩
      · simp only [ha] at hs ⊢
        simp only [Prod.mk.injEq] at hs
        obtain ⟨rfl, rfl⟩ := hs
        exact ⟨[], by simp, by simp, by simp [withOutput]⟩
    · simp only [Prod.mk.injEq] at hs
      obtain ⟨rfl, rfl⟩ := hs
      exact ⟨[], by simp, by simp, by simp [withOutput]⟩
    · simp only [Prod.mk.injEq] at hs
      obtain ⟨rfl, rfl⟩ := hs
      exact ⟨[], by simp, by simp, by simp [withOutput]⟩

end Intcode

namespace Intcode

theorem run_withOutput : ∀ (f : Nat) {m m1 : Machine} {r : Option Error},
    Machine.run f m = some (m1, r) → ∀ o, ∃ d, m1.output = m.output ++ d ∧
      Machine.run f (withOutput m o) = some (withOutput m1 (o ++ d), r) := by
  intro f
  induction f with
  | zero =>
    intro m m1 r h o
    by_cases hh : m.halted = true
    · rw [run_halted 0 m hh] at h
      simp only [Option.some.injEq, Prod.mk.injEq] at h
      obtain ⟨rfl, rfl⟩ := h
      refine ⟨[], by simp, ?_⟩
      rw [run_halted 0 _ (show (withOutput m o).halted = true from hh)]
      simp [withOutput]
    · simp [Machine.run, hh] at h
  | succ g ih =>
    intro m m1 r h o
    by_cases hh : m.halted = true
    · rw [run_halted _ _ hh] at h
      simp only [Option.some.injEq, Prod.mk.injEq] at h
      obtain ⟨rfl, rfl⟩ := h
      refine ⟨[], by simp, ?_⟩
      rw [run_halted _ _ (show (withOutput m o).halted = true from hh)]
      simp [withOutput]
    · simp only [Machine.run, hh, Bool.false_eq_true, if_false] at h
      rcases hs : m.step with ⟨m2, r2⟩
      rw [hs] at h
      obtain ⟨d, hd, hdl, hso⟩ := step_withOutput hs o
      have hwh : (withOutput m o).halted = false := by simpa using hh
      cases r2 with
      | some e =>
        simp only [Option.some.injEq, Prod.mk.injEq] at h
        obtain ⟨rfl, rfl⟩ := h
        refine ⟨d, hd, ?_⟩
        simp only [Machine.run, hwh, Bool.false_eq_true, if_false, hso]
      | none =>
        obtain ⟨d2, hd2, hrun2⟩ := ih h (o ++ d)
        refine ⟨d ++ d2, by rw [hd2, hd, List.append_assoc], ?_⟩
        simp only [Machine.run, hwh, Bool.false_eq_true, if_false, hso]
        rw [hrun2, List.append_assoc]

theorem drive_succ (fuel : Nat) (m : Machine) :
    Machine.drive (fuel + 1) m =
      (if m.halted then some ([], .Halted)
       else
        match m.step with
        | (m1, some e) => some ([], e)
        | (m1, none) =>
          match m1.pop_output with
          | (none, m2) => Machine.drive fuel m2
          | (some v, m2) =>
            match Machine.drive fuel m2 with
            | none => none
            | some (vs, e) => some (v :: vs, e)) := rfl

theorem next_output_succ (fuel : Nat) (m : Machine) :
    Machine.next_output (fuel + 1) m =
      (if m.halted then some (fuel, m, .error .Halted)
       else
        match m.step with
        | (m1, some e) => some (fuel, m1, .error e)
        | (m1, none) =>
          match m1.pop_output with
          | (none, m2) => Machine.next_output fuel m2
          | (some v, m2) => some (fuel, m2, .ok v)) := rfl

theorem run_drive : ∀ (f : Nat) {m mf : Machine}, m.output = [] →
    Machine.run f m = some (mf, none) →
    Machine.drive (f + 1) m = some (mf.output, .Halted) := by
  intro f
  induction f with
  | zero =>
    intro m mf hout h
    by_cases hh : m.halted = true
    · rw [run_halted 0 m hh] at h
      simp only [Option.some.injEq, Prod.mk.injEq] at h
      obtain ⟨rfl, -⟩ := h
      simp [Machine.drive, hh, hout]
    · simp [Machine.run, hh] at h
  | succ g ih =>
    intro m mf hout h
    by_cases hh : m.halted = true
    · rw [run_halted _ _ hh] at h
      simp only [Option.some.injEq, Prod.mk.injEq] at h
      obtain ⟨rfl, -⟩ := h
      rw [drive_succ]
      simp [hh, hout]
    · simp only [Machine.run, hh, Bool.false_eq_true, if_false] at h
      rcases hs : m.step with ⟨m2, r2⟩
      rw [hs] at h
      cases r2 with
      | some e => simp at h
      | none =>
        rw [drive_succ]
        simp only [hh, Bool.false_eq_true, if_false, hs]
        obtain ⟨d, hd, hdl, -⟩ := step_withOutput hs []
        rw [hout] at hd
        simp only [List.nil_append] at hd
        rcases d with _ | ⟨v, drest⟩
        · have hpop : m2.pop_output = (none, m2) := by
            simp [Machine.pop_output, hd]
          simp only [hpop]
          exact ih hd h
        · have hrest : drest = [] := by simpa using hdl
          subst hrest
          have hpop : m2.pop_output = (some v, withOutput m2 []) := by
            simp [Machine.pop_output, hd, withOutput]
          simp only [hpop]
          obtain ⟨d2, hd2, hrun2⟩ := run_withOutput g h []
          simp only [List.nil_append] at hrun2
          have hdrive := ih (show (withOutput m2 []).output = [] from rfl) hrun2
          simp only [hdrive, withOutput_output]
          simp [hd2, hd]

theorem drive_eq_next : ∀ (f : Nat) (m : Machine),
    Machine.drive f m =
      (match Machine.next_output f m with
       | none => none
       | some (_, _, .error e) => some ([], e)
       | some (f1, m1, .ok v) =>
         (match Machine.drive f1 m1 with
          | none => none
          | some (vs, e) => some (v :: vs, e))) := by
  intro f
  induction f with
  | zero => intro m; rfl
  | succ g ih =>
    intro m
    by_cases hh : m.halted = true
    · rw [drive_succ, next_output_succ]
      simp [hh]
    · rw [drive_succ, next_output_succ]
      simp only [hh, Bool.false_eq_true, if_false]
      rcases hs : m.step with ⟨m2, r2⟩
      cases r2 with
      | some e => rfl
      | none =>
        show (match m2.pop_output with
              | (none, m4) => Machine.drive g m4
              | (some v4, m4) =>
                (match Machine.drive g m4 with
                 | none => none
                 | some (vs, e) => some (v4 :: vs, e))) =
          (match (match m2.pop_output with
                  | (none, m4) => Machine.next_output g m4
                  | (some v4, m4) => some (g, m4, Except.ok v4)) with
           | none => none
           | some (_, _, .error e) => some ([], e)
           | some (f1, m4, .ok v4) =>
             (match Machine.drive f1 m4 with
              | none => none
              | some (vs, e) => some (v4 :: vs, e)))
        rcases hp : m2.pop_output with ⟨o2, m3⟩
        cases o2 with
        | none => exact ih m3
        | some v => rfl

set_option linter.unusedVariables false in
/-- C8: repeated `next_output` calls return each produced output exactly
once in production order, and the call after the last output returns the
`Halted` error: `drive` (collect the values of repeated `next_output`
calls) unfolds through `next_output` one call at a time; `next_output` on a
halted machine signals `Halted`; and driving a machine whose run-to-halt
succeeds yields exactly that run's output queue, then `Halted`. -/
theorem C8_next_output_stream :
    (∀ (f : Nat) (m : Machine),
      Machine.drive f m =
        (match Machine.next_output f m with
         | none => none
         | some (_, _, .error e) => some ([], e)
         | some (f1, m1, .ok v) =>
           (match Machine.drive f1 m1 with
            | none => none
            | some (vs, e) => some (v :: vs, e)))) ∧
    (∀ (f : Nat) (m : Machine), m.halted = true →
      Machine.next_output (f + 1) m = some (f, m, .error .Halted)) ∧
    (∀ (f : Nat) (m mf : Machine), m.output = [] →
      Machine.run f m = some (mf, none) →
      Machine.drive (f + 1) m = some (mf.output, .Halted)) :=
  ⟨drive_eq_next,
   fun f m hm => by simp [Machine.next_output, hm],
   fun f m mf h1 h2 => run_drive f h1 h2⟩

/-- Witness for C8 at program `[104, 7, 99]`: one output, then `Halted`. -/
theorem C8_next_output_stream_witness :
    (Machine.new [104, 7, 99]).output = [] ∧
    Machine.run 2 (Machine.new [104, 7, 99])
      = some (Machine.mk [104, 7, 99] 2 true [] [7] 0 none, none) ∧
    Machine.drive 3 (Machine.new [104, 7, 99])
      = some ((Machine.mk [104, 7, 99] 2 true [] [7] 0 none).output, .Halted) :=
  ⟨rfl, by decide,
   C8_next_output_stream.2.2 2 (Machine.new [104, 7, 99])
     (Machine.mk [104, 7, 99] 2 true [] [7] 0 none) rfl (by decide)⟩

end Intcode
